import Mathlib

/-!
Verification of the version-tracked incremental code-analysis pipeline.

The development shallowly embeds, in Lean:
- the multi-dimensional static analyzer (linting, security, architecture,
  quality and documentation passes, metrics and per-dimension scoring);
- the incremental review orchestrator and its changed-line proximity
  filter;
- the content-fingerprinting version store.

The syntax-validation sub-check calls an external parser; its outcome
(success, or a thrown error with an optional reported location) is a
parameter of the embedding.  Likewise the diff engine, whose internals are
external to the analyzed sources, enters the orchestrator as a function
parameter producing the changed-line list.  The content fingerprint is an
arbitrary function parameter standing for the SHA-256 digest.
-/

namespace CodeReview

/-! ## Character classes and scanner helpers

The regular-expression checks of the analyzer are embedded as explicit
scanners over lists of characters.  A scanner consumes a prefix and returns
the rest, so a sequence of scanners composes in the Option monad; matching
a pattern anywhere in a line is a search over the suffixes of the line.
-/

/-- The word characters of the regex class used by the analyzer. -/
def jsWordChar (c : Char) : Bool :=
  (('a' ≤ c && c ≤ 'z') || ('A' ≤ c && c ≤ 'Z') || ('0' ≤ c && c ≤ '9') || c = '_')

/-- The whitespace characters of the regex class used by the analyzer. -/
def jsWs (c : Char) : Bool :=
  c = ' ' || c = '\t' || c = '\n' || c = '\x0d' || c = '\x0b' || c = '\x0c'

/-- Drop a possibly empty run of whitespace. -/
def dropWsRun : List Char → List Char
  | [] => []
  | c :: rest => if jsWs c then dropWsRun rest else c :: rest

/-- Consume a nonempty run of whitespace. -/
def matchWsPlus : List Char → Option (List Char)
  | [] => none
  | c :: rest => if jsWs c then some (dropWsRun rest) else none

/-- Consume an exact literal. -/
def matchLit : List Char → List Char → Option (List Char)
  | [], s => some s
  | _ :: _, [] => none
  | p :: ps, c :: cs => if c = p then matchLit ps cs else none

/-- Consume an exact literal, comparing case-insensitively. -/
def matchLitCI : List Char → List Char → Option (List Char)
  | [], s => some s
  | _ :: _, [] => none
  | p :: ps, c :: cs => if c.toLower = p.toLower then matchLitCI ps cs else none

/-- Consume one character satisfying a predicate. -/
def matchChar (pred : Char → Bool) : List Char → Option (List Char)
  | [] => none
  | c :: rest => if pred c then some rest else none

/-- Optionally consume one character satisfying a predicate. -/
def matchOptChar (pred : Char → Bool) : List Char → List Char
  | [] => []
  | c :: rest => if pred c then rest else c :: rest

/-- Consume a run of at least `n` word characters (greedy). -/
def matchWordMin (n : Nat) (s : List Char) : Option (List Char) :=
  let run := s.takeWhile jsWordChar
  if n ≤ run.length && 1 ≤ run.length then some (s.drop run.length) else none

/-- Does some suffix of the input satisfy the matcher? -/
def anyPos (f : List Char → Bool) (s : List Char) : Bool :=
  s.tails.any f

/-- Search over suffixes, also handing the matcher the character standing
just before the suffix (needed by word-boundary checks). -/
def anyPosBoundGo (f : Option Char → List Char → Bool) : Option Char → List Char → Bool
  | prev, [] => f prev []
  | prev, c :: rest => f prev (c :: rest) || anyPosBoundGo f (some c) rest

/-- Word-boundary aware search from the start of the input. -/
def anyPosBound (f : Option Char → List Char → Bool) (s : List Char) : Bool :=
  anyPosBoundGo f none s

/-- A word boundary stands before the position: start of input or a
non-word character. -/
def boundaryBefore : Option Char → Bool
  | none => true
  | some c => !(jsWordChar c)

/-- Does the string contain the pattern as a substring? -/
def strContains (s pat : String) : Bool :=
  s.toList.tails.any (fun t => pat.toList.isPrefixOf t)

/-- Does the string start with the pattern? -/
def strStarts (s pat : String) : Bool :=
  pat.toList.isPrefixOf s.toList

/-- Does the string end with the pattern? -/
def strEnds (s pat : String) : Bool :=
  pat.toList.isSuffixOf s.toList

/-- The string with leading whitespace removed. -/
def trimLeftStr (s : String) : String :=
  ⟨s.toList.dropWhile jsWs⟩

/-- The string with leading and trailing whitespace removed. -/
def trimStr (s : String) : String :=
  ⟨((s.toList.dropWhile jsWs).reverse.dropWhile jsWs).reverse⟩

/-- The string lowercased character by character. -/
def lowerStr (s : String) : String :=
  ⟨s.toList.map Char.toLower⟩

/-- Split a character list at every occurrence of the separator, keeping
empty parts, as the JavaScript split does. -/
def splitCharList (sep : Char) : List Char → List (List Char)
  | [] => [[]]
  | c :: rest =>
    let r := splitCharList sep rest
    if c = sep then [] :: r
    else (c :: r.headD []) :: r.tail

/-- Split a string at every occurrence of the separator character. -/
def jsSplit (sep : Char) (s : String) : List String :=
  (splitCharList sep s.toList).map (fun l => ⟨l⟩)

/-- Join a list of strings with newlines. -/
def joinLinesList : List String → List Char
  | [] => []
  | [x] => x.toList
  | x :: rest => x.toList ++ '\n' :: joinLinesList rest

/-- Join a list of strings with newlines, as a string. -/
def joinLines (ls : List String) : String := ⟨joinLinesList ls⟩

/-- Drop through the first occurrence of a character, returning what
follows it. -/
def findAfter (c : Char) (s : List Char) : Option (List Char) :=
  match s.dropWhile (fun d => !(d = c)) with
  | [] => none
  | _ :: rest => some rest

/-- Try a list of alternative scanners in order, keeping the first hit. -/
def tryAlts (alts : List (List Char → Option (List Char))) (s : List Char) :
    Option (List Char) :=
  alts.foldl (fun acc f => acc <|> f s) none

/-- Count the non-overlapping matches of the alternatives over the input,
scanning left to right, as a global regex match does: on a hit resume after
the matched prefix, on a miss advance one character.  Fuel bounds the
recursion; every alternative used in this file consumes at least one
character, so fuel equal to the input length is never exhausted. -/
def countMatchesFuel (alts : List (List Char → Option (List Char))) :
    Nat → List Char → Nat
  | 0, _ => 0
  | _ + 1, [] => 0
  | fuel + 1, c :: rest =>
    match tryAlts alts (c :: rest) with
    | some r => 1 + countMatchesFuel alts fuel r
    | none => countMatchesFuel alts fuel rest

/-- Count the non-overlapping matches of the alternatives over a string. -/
def countMatches (alts : List (List Char → Option (List Char))) (s : String) : Nat :=
  countMatchesFuel alts s.toList.length s.toList

/-- Literal alternatives, in the order the alternation lists them. -/
def litAlts (kws : List String) : List (List Char → Option (List Char)) :=
  kws.map (fun k => matchLit k.toList)

/-! ## Data model of the multi-dimensional analyzer -/

/-- One finding of an analysis dimension. -/
structure Issue where
  type : String
  category : String
  severity : String
  line : Nat
  message : String
  suggestion : String
  autoFixable : Bool
deriving DecidableEq

/-- One documentation suggestion (same shape as an issue, without the
auto-fix flag). -/
structure Suggestion where
  type : String
  category : String
  severity : String
  line : Nat
  message : String
  suggestion : String
deriving DecidableEq

/-- The issue list and score of one analysis dimension. -/
structure DimensionResult where
  issues : List Issue
  score : Int
deriving DecidableEq

/-- The documentation dimension keeps issues and suggestions apart. -/
structure DocumentationResult where
  issues : List Issue
  suggestions : List Suggestion
deriving DecidableEq

/-- The metrics block of the analyzer.  The maintainability index mixes
integer counts with two divisions; it is modelled over the rationals. -/
structure Metrics where
  totalLines : Nat
  codeLines : Nat
  commentLines : Nat
  fileSize : Nat
  complexityScore : Nat
  maintainabilityIndex : ℚ
deriving DecidableEq

/-- The full result of one analyzer run. -/
structure Analysis where
  linting : DimensionResult
  security : DimensionResult
  architecture : DimensionResult
  quality : DimensionResult
  documentation : DocumentationResult
  metrics : Metrics
  issues : List Issue
deriving DecidableEq

/-- The outcome of the external syntax parser on the content: success, or a
thrown error carrying a message and, when the parser located the error, a
1-based line. -/
structure ParseErr where
  loc : Option Nat
  message : String
deriving DecidableEq

/-- The lowercased text after the last dot of the file name. -/
def fileExtOf (fileName : String) : String :=
  lowerStr ((jsSplit '.' fileName).getLastD "")

def isJavaScriptExt (ext : String) : Bool :=
  ["js", "jsx", "ts", "tsx"].contains ext

def isPythonExt (ext : String) : Bool := ext = "py"

def isCSSExt (ext : String) : Bool := ["css", "scss", "sass"].contains ext

def isCodeExt (ext : String) : Bool :=
  ["js", "jsx", "ts", "tsx", "py", "java"].contains ext

/-! ## Per-line checks

Each check embeds one regular-expression test of the analyzer. -/

/-- Trailing whitespace at the end of the line. -/
def hasTrailingWs (line : String) : Bool :=
  strEnds line " " || strEnds line "\t"

/-- Line longer than 120 characters. -/
def isLongLine (line : String) : Bool :=
  120 < line.length

/-- A keyword at a word boundary followed by optional whitespace and an
opening parenthesis (the eval, exec and print checks). -/
def kwCallCheck (kw : String) (line : String) : Bool :=
  anyPosBound (fun prev s =>
    boundaryBefore prev &&
    (Option.isSome (do
      let r ← matchLit kw.toList s
      matchChar (fun c => c = '(') (dropWsRun r)))) line.toList

/-- The var keyword at a word boundary followed by whitespace. -/
def varCheck (line : String) : Bool :=
  anyPosBound (fun prev s =>
    boundaryBefore prev &&
    (Option.isSome ((matchLit "var".toList s).bind (matchChar jsWs)))) line.toList

/-- Loose equality: two equals signs not flanked by comparison characters. -/
def looseEqCheck (line : String) : Bool :=
  anyPos (fun s =>
    match s with
    | a :: b :: c :: d :: _ =>
      (!(a = '=') && !(a = '!') && !(a = '>') && !(a = '<')) &&
        b = '=' && c = '=' && !(d = '=')
    | _ => false) line.toList

/-- A console statement. -/
def consoleCheck (line : String) : Bool :=
  ["console.log", "console.debug", "console.info", "console.warn"].any
    (fun p => strContains line p)

/-- The innerHTML assignment check. -/
def innerHTMLCheck (line : String) : Bool :=
  anyPos (fun s =>
    Option.isSome (do
      let r ← matchLit ".innerHTML".toList s
      matchChar (fun c => c = '=') (dropWsRun r))) line.toList

/-- The document.write call check. -/
def documentWriteCheck (line : String) : Bool :=
  anyPos (fun s =>
    Option.isSome (do
      let r ← matchLit "document.write".toList s
      matchChar (fun c => c = '(') (dropWsRun r))) line.toList

/-- The unsafe-regex heuristic: a slash, then two plus signs, then a
slash, in order on the line. -/
def redosCheck (line : String) : Bool :=
  Option.isSome (do
    let r1 ← findAfter '/' line.toList
    let r2 ← findAfter '+' r1
    let r3 ← findAfter '+' r2
    findAfter '/' r3)

/-- A quote character. -/
def isQuoteChar (c : Char) : Bool := c = '\'' || c = '"'

/-- The SQL-injection heuristic: execute, an opening parenthesis, a quoted
SELECT and a format placeholder, case-insensitively. -/
def sqlInjectionCheck (line : String) : Bool :=
  anyPos (fun s =>
    Option.isSome (do
      let r ← matchLitCI "execute".toList s
      let r ← matchChar (fun c => c = '(') (dropWsRun r)
      let r ← matchChar isQuoteChar (dropWsRun r)
      let r ← matchLitCI "select".toList (dropWsRun r)
      if r.tails.any (fun t =>
          match t with
          | '%' :: c :: _ => c.toLower = 's'
          | _ => false) then some r else none)) line.toList

/-- One hardcoded-secret pattern: a case-insensitive key phrase (with an
optional underscore or dash between its words), an equals sign and a quoted
run of at least `minRun` word characters. -/
def secretPattern (first : String) (restWords : List String) (minRun : Nat)
    (line : String) : Bool :=
  anyPos (fun s =>
    Option.isSome (do
      let r ← matchLitCI first.toList s
      let r ← restWords.foldlM (fun r word =>
        matchLitCI word.toList (matchOptChar (fun c => c = '_' || c = '-') r)) r
      let r ← matchChar (fun c => c = '=') (dropWsRun r)
      let r ← matchChar isQuoteChar (dropWsRun r)
      let r ← matchWordMin minRun r
      matchChar isQuoteChar r)) line.toList

/-- The six hardcoded-secret checks, in the order the analyzer lists them. -/
def secretCheckers : List (String → Bool) :=
  [ secretPattern "api" ["key"] 20
  , secretPattern "api" ["secret"] 20
  , secretPattern "password" [] 1
  , secretPattern "token" [] 20
  , secretPattern "secret" [] 20
  , secretPattern "aws" ["access", "key"] 1 ]

/-- A function keyword, whitespace and a name. -/
def funcDeclKw (s : List Char) : Option (List Char) := do
  let r ← matchLit "function".toList s
  let r ← matchWsPlus r
  matchWordMin 1 r

/-- A const binding of a parenthesised value: const, a name, an equals sign
and an opening parenthesis. -/
def funcDeclConst (s : List Char) : Option (List Char) := do
  let r ← matchLit "const".toList s
  let r ← matchWsPlus r
  let r ← matchWordMin 1 r
  let r ← matchChar (fun c => c = '=') (dropWsRun r)
  matchChar (fun c => c = '(') (dropWsRun r)

/-- Does the line hold either function-declaration shape anywhere? -/
def lineHasFuncDecl (line : String) : Bool :=
  anyPos (fun s => (funcDeclKw s).isSome || (funcDeclConst s).isSome) line.toList

/-- An export of a named declaration: export, whitespace and one of the
declaration keywords. -/
def exportDeclMatcher (s : List Char) : Option (List Char) := do
  let r ← matchLit "export".toList s
  let r ← matchWsPlus r
  tryAlts (litAlts ["const", "let", "var", "function", "class"]) r

/-- A line that is an import statement: the import keyword, at least one
whitespace character and at least one further character. -/
def importLineCheck (line : String) : Bool :=
  match matchLit "import".toList line.toList with
  | some (c :: _ :: _) => jsWs c
  | _ => false

/-- A magic number: a maximal run of at least three digits flanked by word
boundaries, on a line that is neither a comment nor a constant binding. -/
def magicNumberCheck (line : String) : Bool :=
  (anyPosBound (fun prev s =>
    boundaryBefore prev &&
    (let run := s.takeWhile Char.isDigit
     3 ≤ run.length &&
       (match s.drop run.length with
        | [] => true
        | c :: _ => !(jsWordChar c)))) line.toList) &&
    !(strContains line "//") && !(strContains line "const")

/-- A TODO-style comment: a line comment opener, optional whitespace and
one of the marker words, case-insensitively. -/
def todoCheck (line : String) : Bool :=
  anyPos (fun s =>
    Option.isSome (do
      let r ← matchLit "//".toList s
      let r := dropWsRun r
      tryAlts
        (["TODO", "FIXME", "HACK", "XXX", "BUG"].map (fun k => matchLitCI k.toList)) r))
    line.toList

/-- An empty catch block anywhere in the content: catch, a parenthesised
parameter list and an empty brace pair, whitespace allowed between. -/
def emptyCatchContentCheck (content : String) : Bool :=
  anyPos (fun s =>
    Option.isSome (do
      let r ← matchLit "catch".toList s
      let r ← matchChar (fun c => c = '(') (dropWsRun r)
      let r ← matchChar (fun c => c = ')') (r.dropWhile (fun c => !(c = ')')))
      let r ← matchChar (fun c => c = '{') (dropWsRun r)
      matchChar (fun c => c = '}') (dropWsRun r))) content.toList

/-- The index of the first non-whitespace character exceeds the threshold
(a line of only whitespace reports no index and never exceeds it). -/
def leadingWsOver (threshold : Nat) (line : String) : Bool :=
  line.toList.any (fun c => !(jsWs c)) &&
    threshold < (line.toList.takeWhile jsWs).length

/-- The branching-keyword count of the documentation pass. -/
def docComplexityCount (line : String) : Nat :=
  countMatches (litAlts ["if", "else", "for", "while", "switch", "case", "?", "&&", "||"])
    line

/-- The branching-keyword alternatives of the metrics pass. -/
def metricsComplexityAlts : List (List Char → Option (List Char)) :=
  litAlts ["if", "else", "for", "while", "case", "catch", "?", "&&", "||"]

/-- An optional group: consume the scanner's match when it succeeds, else
stay put. -/
def optGroup (f : List Char → Option (List Char)) (s : List Char) : List Char :=
  match f s with
  | some r => r
  | none => s

/-- A function declaration anchored at the start of the line: an optional
export and async, the function keyword, whitespace and a name; or an
optional export, a const binding of a possibly async parenthesised value. -/
def isFunctionDeclLine (line : String) : Bool :=
  (Option.isSome (do
    let r := optGroup (fun s => (matchLit "export".toList s).bind matchWsPlus) line.toList
    let r := optGroup (fun s => (matchLit "async".toList s).bind matchWsPlus) r
    let r ← matchLit "function".toList r
    let r ← matchWsPlus r
    matchWordMin 1 r)) ||
  (Option.isSome (do
    let r := optGroup (fun s => (matchLit "export".toList s).bind matchWsPlus) line.toList
    let r ← matchLit "const".toList r
    let r ← matchWsPlus r
    let r ← matchWordMin 1 r
    let r ← matchChar (fun c => c = '=') (dropWsRun r)
    let r := optGroup (fun s => (matchLit "async".toList s).map dropWsRun) (dropWsRun r)
    matchChar (fun c => c = '(') r))

/-! ## The analysis passes

Each pass walks the line list and emits the issues of its checks, in the
order the analyzer pushes them. -/

/-- Walk the lines; where the check fires, emit the value built from the
1-based line number and the line. -/
def forEachLine {α : Type} (lines : List String) (cond : Nat → String → Bool)
    (mk : Nat → String → α) : List α :=
  (List.range lines.length).filterMap (fun i =>
    let l := lines.getD i ""
    if cond i l then some (mk (i + 1) l) else none)

/-- Walk the lines; emit, per line, the list built from the 1-based line
number and the line (for checks that can fire more than once on a line). -/
def forEachLineMulti {α : Type} (lines : List String) (mks : Nat → String → List α) :
    List α :=
  (List.range lines.length).flatMap (fun i => mks (i + 1) (lines.getD i ""))

def mkTrailingWsIssue (n : Nat) : Issue :=
  ⟨"linting", "style", "info", n, "Trailing whitespace detected",
    "Remove trailing whitespace at the end of the line", true⟩

def mkLongLineIssue (n len : Nat) : Issue :=
  ⟨"linting", "style", "info", n,
    "Line too long (" ++ toString len ++ " characters)",
    "Break this line into multiple lines for better readability (max 120 chars)", false⟩

def mkVarIssue (n : Nat) : Issue :=
  ⟨"linting", "best-practice", "warning", n, "Use of deprecated \"var\" keyword",
    "Replace \"var\" with \"const\" or \"let\" for better scoping", true⟩

def mkLooseEqIssue (n : Nat) : Issue :=
  ⟨"linting", "best-practice", "warning", n, "Use of loose equality (==)",
    "Use strict equality (===) to avoid type coercion", true⟩

def mkConsoleIssue (n : Nat) : Issue :=
  ⟨"linting", "cleanup", "info", n, "Console statement detected",
    "Remove console statements before production deployment", true⟩

def mkSyntaxErrorIssue (n : Nat) (msg : String) : Issue :=
  ⟨"linting", "syntax", "error", n, "Syntax error: " ++ msg,
    "Fix the syntax error to ensure code can be parsed", false⟩

def mkPyTabIssue (n : Nat) : Issue :=
  ⟨"linting", "style", "warning", n, "Tab character used for indentation",
    "Use 4 spaces for indentation (PEP 8)", true⟩

def mkPyPrintIssue (n : Nat) : Issue :=
  ⟨"linting", "cleanup", "info", n, "Print statement detected",
    "Use proper logging instead of print statements", false⟩

def mkImportantIssue (n : Nat) : Issue :=
  ⟨"linting", "best-practice", "warning", n, "Use of !important detected",
    "Avoid !important; refactor CSS specificity instead", false⟩

def mkEvalIssue (n : Nat) : Issue :=
  ⟨"security", "code-injection", "critical", n,
    "Use of eval() detected - code injection risk",
    "Avoid eval(); use safer alternatives like JSON.parse() or Function constructor",
    false⟩

def mkInnerHTMLIssue (n : Nat) : Issue :=
  ⟨"security", "xss", "warning", n, "Use of innerHTML - XSS vulnerability risk",
    "Use textContent or sanitize HTML input to prevent XSS", false⟩

def mkDocumentWriteIssue (n : Nat) : Issue :=
  ⟨"security", "xss", "warning", n,
    "Use of document.write() - security and performance risk",
    "Use modern DOM manipulation methods instead", false⟩

def mkRedosIssue (n : Nat) : Issue :=
  ⟨"security", "redos", "warning", n,
    "Potentially unsafe regex - ReDoS vulnerability",
    "Review regex pattern for catastrophic backtracking", false⟩

def mkExecIssue (n : Nat) : Issue :=
  ⟨"security", "code-injection", "critical", n, "Use of exec() - code injection risk",
    "Avoid exec(); use safer alternatives", false⟩

def mkSqlInjectionIssue (n : Nat) : Issue :=
  ⟨"security", "sql-injection", "critical", n,
    "Potential SQL injection vulnerability",
    "Use parameterized queries instead of string formatting", false⟩

def mkSecretIssue (n : Nat) : Issue :=
  ⟨"security", "secrets", "critical", n, "Potential hardcoded secret detected",
    "Move secrets to environment variables or secure vault", false⟩

def mkLargeFileIssue (bytes : Nat) : Issue :=
  ⟨"architecture", "modularity", "warning", 1,
    "Large file size: " ++ toString ((bytes : ℚ) / 1024) ++ " KB",
    "Consider splitting into smaller, more focused modules", false⟩

def mkHighFuncCountIssue (count : Nat) : Issue :=
  ⟨"architecture", "modularity", "info", 1, "High function count: " ++ toString count,
    "Consider splitting this file into multiple modules", false⟩

def mkHighImportsIssue (count : Nat) : Issue :=
  ⟨"architecture", "dependencies", "info", 1,
    "High number of imports: " ++ toString count,
    "Consider reducing dependencies or splitting into focused modules", false⟩

def mkMixedExportsIssue : Issue :=
  ⟨"architecture", "module-design", "info", 1, "Mixed default and named exports",
    "Consider using only named exports for better tree-shaking", false⟩

def mkDeepNestingIssue (n : Nat) : Issue :=
  ⟨"architecture", "complexity", "warning", n, "Deeply nested code (>6 levels)",
    "Refactor to reduce nesting - extract functions or use early returns", false⟩

def mkMagicNumberIssue (n : Nat) : Issue :=
  ⟨"quality", "maintainability", "info", n, "Magic number detected",
    "Extract magic numbers into named constants", false⟩

def mkDuplicateIssue (n : Nat) : Issue :=
  ⟨"quality", "duplication", "warning", n, "Duplicate code block detected",
    "Extract duplicate code into a reusable function", false⟩

def mkTodoIssue (n : Nat) : Issue :=
  ⟨"quality", "technical-debt", "info", n, "TODO/FIXME comment found",
    "Address this comment or create a task to track it", false⟩

def mkEmptyCatchIssue (n : Nat) : Issue :=
  ⟨"quality", "error-handling", "warning", n, "Empty catch block",
    "Handle errors appropriately or at least log them", false⟩

def mkLongFunctionIssue (n len : Nat) : Issue :=
  ⟨"quality", "complexity", "warning", n, "Long function: " ++ toString len ++ " lines",
    "Break down into smaller, more focused functions", false⟩

def mkFileHeaderSuggestion : Suggestion :=
  ⟨"documentation", "file-header", "info", 1, "Missing file-level documentation",
    "Add a file-level comment describing the purpose and contents of this file"⟩

def mkFuncDocIssue (n : Nat) : Issue :=
  ⟨"documentation", "function-docs", "info", n, "Function lacks documentation",
    "Add JSDoc/docstring to describe parameters, return value, and purpose", false⟩

def mkComplexSuggestion (n : Nat) : Suggestion :=
  ⟨"documentation", "code-clarity", "info", n, "Complex logic without explanation",
    "Add a comment explaining the logic flow"⟩

/-- The issue the linting pass emits when the parser threw with a located
error; a throw without a location emits nothing, and a successful parse
emits nothing. -/
def parseIssues (parseResult : Option ParseErr) : List Issue :=
  match parseResult with
  | some e =>
    match e.loc with
    | some l => [mkSyntaxErrorIssue l e.message]
    | none => []
  | none => []

/-- The JavaScript lint checks: var, loose equality, console statements,
then the caught outcome of the syntax validation. -/
def lintJavaScript (parseResult : Option ParseErr) (lines : List String) : List Issue :=
  forEachLine lines (fun _ l => varCheck l) (fun n _ => mkVarIssue n) ++
  forEachLine lines (fun _ l => looseEqCheck l) (fun n _ => mkLooseEqIssue n) ++
  forEachLine lines (fun _ l => consoleCheck l) (fun n _ => mkConsoleIssue n) ++
  parseIssues parseResult

/-- The Python lint checks run both tests line by line. -/
def lintPython (lines : List String) : List Issue :=
  forEachLineMulti lines (fun n l =>
    (if strContains l "\t" then [mkPyTabIssue n] else []) ++
    (if kwCallCheck "print" l then [mkPyPrintIssue n] else []))

/-- The CSS lint check. -/
def lintCSS (lines : List String) : List Issue :=
  forEachLine lines (fun _ l => strContains l "!important") (fun n _ => mkImportantIssue n)

/-- The linting pass: trailing whitespace and long lines for every file,
then the language-specific checks. -/
def performLintingAnalysis (parseResult : Option ParseErr) (lines : List String)
    (ext : String) : List Issue :=
  forEachLine lines (fun _ l => hasTrailingWs l) (fun n _ => mkTrailingWsIssue n) ++
  forEachLine lines (fun _ l => isLongLine l) (fun n l => mkLongLineIssue n l.length) ++
  (if isJavaScriptExt ext then lintJavaScript parseResult lines
   else if isPythonExt ext then lintPython lines
   else if isCSSExt ext then lintCSS lines
   else [])

/-- The JavaScript security checks: eval, innerHTML, document.write, and
the guarded unsafe-regex sweep. -/
def securityCheckJavaScript (lines : List String) : List Issue :=
  forEachLine lines (fun _ l => kwCallCheck "eval" l) (fun n _ => mkEvalIssue n) ++
  forEachLine lines (fun _ l => innerHTMLCheck l) (fun n _ => mkInnerHTMLIssue n) ++
  forEachLine lines (fun _ l => documentWriteCheck l) (fun n _ => mkDocumentWriteIssue n) ++
  (if lines.any redosCheck then
    forEachLine lines (fun _ l => redosCheck l) (fun n _ => mkRedosIssue n)
   else [])

/-- The Python security checks: exec and the SQL-injection heuristic. -/
def securityCheckPython (lines : List String) : List Issue :=
  forEachLine lines (fun _ l => kwCallCheck "exec" l) (fun n _ => mkExecIssue n) ++
  forEachLine lines (fun _ l => sqlInjectionCheck l) (fun n _ => mkSqlInjectionIssue n)

/-- The security pass: language-specific checks, then one issue per
hardcoded-secret pattern matching each line. -/
def performSecurityAnalysis (lines : List String) (ext : String) : List Issue :=
  (if isJavaScriptExt ext then securityCheckJavaScript lines
   else if isPythonExt ext then securityCheckPython lines
   else []) ++
  forEachLineMulti lines (fun n l =>
    (secretCheckers.filter (fun chk => chk l)).map (fun _ => mkSecretIssue n))

/-- The architecture pass: file size, function count, import count, mixed
exports, then deep nesting line by line. -/
def performArchitectureAnalysis (content : String) (lines : List String) : List Issue :=
  (if (500 : ℚ) < (content.utf8ByteSize : ℚ) / 1024
   then [mkLargeFileIssue content.utf8ByteSize] else []) ++
  (let functionCount := countMatches [funcDeclKw, funcDeclConst] content
   if 20 < functionCount then [mkHighFuncCountIssue functionCount] else []) ++
  (let importCount := (lines.filter importLineCheck).length
   if 15 < importCount then [mkHighImportsIssue importCount] else []) ++
  (if strContains content "export default" &&
      5 < countMatches [exportDeclMatcher] content
   then [mkMixedExportsIssue] else []) ++
  forEachLine lines (fun _ l => leadingWsOver 24 l) (fun n _ => mkDeepNestingIssue n)

/-- One step of the duplicate-block sweep: the 5-line block starting at
index `i`, trimmed; a long non-comment block already seen emits an issue,
and every such block is recorded. -/
def duplicateStep (lines : List String) (acc : List String × List Issue) (i : Nat) :
    List String × List Issue :=
  let block := trimStr (joinLines ((lines.drop i).take 5))
  if 50 < block.length && !(strStarts block "//") && !(strStarts block "/*") then
    (block :: acc.1,
     if acc.1.contains block then acc.2 ++ [mkDuplicateIssue (i + 1)] else acc.2)
  else acc

/-- The duplicate-code sweep over all 5-line windows. -/
def duplicateIssues (lines : List String) : List Issue :=
  ((List.range (lines.length - 5)).foldl (duplicateStep lines) ([], [])).2

def countCharIn (c : Char) (line : String) : Nat :=
  (line.toList.filter (fun d => d = c)).length

/-- The running state of the long-function sweep: the index where the last
function declaration started (if any), the running brace balance, and the
issues emitted so far. -/
structure LongFnAcc where
  functionStart : Option Nat
  braceCount : Int
  issues : List Issue

/-- One step of the long-function sweep, mirroring the analyzer: a function
declaration resets the start and the balance; the balance then absorbs the
braces of the line; a balanced point more than 50 lines in emits an issue
and clears the start. -/
def longFunctionStep (acc : LongFnAcc) (p : Nat × String) : LongFnAcc :=
  let index := p.1
  let line := p.2
  let acc := if lineHasFuncDecl line then
    { acc with functionStart := some index, braceCount := 0 } else acc
  let bc := acc.braceCount + (countCharIn '{' line : Int) - (countCharIn '}' line : Int)
  match acc.functionStart with
  | some fs =>
    if bc = 0 ∧ 50 < index - fs then
      { functionStart := none, braceCount := bc,
        issues := acc.issues ++ [mkLongFunctionIssue (fs + 1) (index - fs)] }
    else { acc with braceCount := bc }
  | none => { acc with braceCount := bc }

/-- The long-function sweep over the enumerated lines. -/
def longFunctionIssues (lines : List String) : List Issue :=
  (lines.enum.foldl longFunctionStep ⟨none, 0, []⟩).issues

/-- The quality pass: magic numbers, duplicate blocks, TODO comments, the
guarded empty-catch sweep, then long functions. -/
def performQualityAnalysis (content : String) (lines : List String) : List Issue :=
  forEachLine lines (fun _ l => magicNumberCheck l) (fun n _ => mkMagicNumberIssue n) ++
  duplicateIssues lines ++
  forEachLine lines (fun _ l => todoCheck l) (fun n _ => mkTodoIssue n) ++
  (if emptyCatchContentCheck content then
    forEachLine lines
      (fun i l => strContains l "catch" && trimStr (lines.getD (i + 1) "") = "\x7d")
      (fun n _ => mkEmptyCatchIssue n)
   else []) ++
  longFunctionIssues lines

/-- The documentation pass: a missing file-header suggestion, undocumented
function declarations, and unexplained complex lines. -/
def performDocumentationAnalysis (content : String) (lines : List String)
    (ext : String) : DocumentationResult :=
  if !(isCodeExt ext) then ⟨[], []⟩
  else
    let fileSug :=
      if !(strStarts (trimLeftStr content) "/**" || strStarts (trimLeftStr content) "\"\"\"")
      then [mkFileHeaderSuggestion] else []
    let funcIssues := forEachLine lines
      (fun i l => isFunctionDeclLine l &&
        (let prev := if 0 < i then trimStr (lines.getD (i - 1) "") else ""
         !(strStarts prev "/**" || strStarts prev "\"\"\"") &&
           !(strContains l "= () =>")))
      (fun n _ => mkFuncDocIssue n)
    let complexSugs := forEachLine lines
      (fun i l => 3 < docComplexityCount l &&
        !(decide (0 < i) && strStarts (trimStr (lines.getD (i - 1) "")) "//"))
      (fun n _ => mkComplexSuggestion n)
    ⟨funcIssues, fileSug ++ complexSugs⟩

/-- The metrics block: line counts, file size, the capped complexity proxy
and the clamped maintainability index. -/
def calculateMetrics (content : String) (lines : List String) : Metrics :=
  let codeLines := (lines.filter (fun l => !(trimStr l = "") && !(strStarts (trimStr l) "//"))).length
  let complexityKeywords := countMatches metricsComplexityAlts content
  let complexityScore := min 100 (complexityKeywords * 2)
  let avgLineLength : ℚ :=
    if 0 < codeLines then (content.length : ℚ) / (codeLines : ℚ) else 0
  { totalLines := lines.length
    codeLines := codeLines
    commentLines :=
      (lines.filter (fun l => strStarts (trimStr l) "//" || strStarts (trimStr l) "*")).length
    fileSize := content.utf8ByteSize
    complexityScore := complexityScore
    maintainabilityIndex :=
      max 0 (min 100 (100 - (complexityScore : ℚ) / 2 - avgLineLength / 5)) }

/-- The per-dimension score: start at 100, subtract the severity-weighted
penalty of each issue, and clamp at the floor 100 minus the maximal
deduction (50 by default, 100 for the security dimension). -/
def calculateScore (issues : List Issue) (maxDeduction : Int := 50) : Int :=
  let score := issues.foldl (fun score issue =>
    if issue.severity = "critical" then score - 15
    else if issue.severity = "error" then score - 10
    else if issue.severity = "warning" then score - 5
    else if issue.severity = "info" then score - 1
    else score) 100
  max (100 - maxDeduction) score

/-- Recompute the four dimension scores of an analysis from their issue
lists. -/
def calculateScores (analysis : Analysis) : Analysis :=
  { analysis with
    linting := { analysis.linting with score := calculateScore analysis.linting.issues }
    security := { analysis.security with
      score := calculateScore analysis.security.issues 100 }
    architecture := { analysis.architecture with
      score := calculateScore analysis.architecture.issues }
    quality := { analysis.quality with score := calculateScore analysis.quality.issues } }

/-- The analysis record before scoring: the five passes, the metrics and
the combined issue list in pass order. -/
def assembleAnalysis (parseResult : Option ParseErr) (content fileName : String) :
    Analysis :=
  let lines := jsSplit '\n' content
  let ext := fileExtOf fileName
  let linting := performLintingAnalysis parseResult lines ext
  let security := performSecurityAnalysis lines ext
  let architecture := performArchitectureAnalysis content lines
  let quality := performQualityAnalysis content lines
  let documentation := performDocumentationAnalysis content lines ext
  { linting := ⟨linting, 100⟩
    security := ⟨security, 100⟩
    architecture := ⟨architecture, 100⟩
    quality := ⟨quality, 100⟩
    documentation := documentation
    metrics := calculateMetrics content lines
    issues := linting ++ security ++ architecture ++ quality ++ documentation.issues }

/-- The multi-dimensional analyzer: assemble the passes, then score the
dimensions.  `parseResult` is the outcome of the external syntax parser on
`content`. -/
def analyzeCodeMultiDimensional (parseResult : Option ParseErr)
    (content fileName : String) : Analysis :=
  calculateScores (assembleAnalysis parseResult content fileName)

/-! ## Dimension scoring -/

/-- The severity weight of one issue, as the scoring subtracts it. -/
def severityPenalty (issue : Issue) : Int :=
  if issue.severity = "critical" then 15
  else if issue.severity = "error" then 10
  else if issue.severity = "warning" then 5
  else if issue.severity = "info" then 1
  else 0

/-- The severity-weighted penalty of an issue list. -/
def totalPenalty (issues : List Issue) : Int :=
  (issues.map severityPenalty).sum

theorem scoreFold_eq (issues : List Issue) (init : Int) :
    issues.foldl (fun score issue =>
      if issue.severity = "critical" then score - 15
      else if issue.severity = "error" then score - 10
      else if issue.severity = "warning" then score - 5
      else if issue.severity = "info" then score - 1
      else score) init = init - totalPenalty issues := by
  induction issues generalizing init with
  | nil => simp [totalPenalty]
  | cons i t ih =>
    rw [List.foldl_cons, ih]
    simp only [totalPenalty, List.map_cons, List.sum_cons, severityPenalty]
    split_ifs <;> ring

theorem calculateScore_eq (issues : List Issue) (d : Int) :
    calculateScore issues d = max (100 - d) (100 - totalPenalty issues) := by
  simp [calculateScore, scoreFold_eq]

/-- The analysis record used to exercise the floors: an architecture
dimension of 21 warnings (penalty 105) and a security dimension of 7
critical issues (penalty 105). -/
def overloadedAnalysis : Analysis :=
  { linting := ⟨[], 100⟩
    security := ⟨List.replicate 7 (mkEvalIssue 1), 100⟩
    architecture := ⟨List.replicate 21 (mkDeepNestingIssue 1), 100⟩
    quality := ⟨[], 100⟩
    documentation := ⟨[], []⟩
    metrics := ⟨0, 0, 0, 0, 0, 0⟩
    issues := [] }

/-- C1: every dimension score equals 100 minus the severity-weighted
penalty of its issues (critical 15, error 10, warning 5, info 1), clamped
below at the dimension floor - 0 for security, 50 for the linting,
architecture and quality dimensions; an architecture dimension whose
penalty exceeds 100 reports exactly 50, a security dimension with the same
overload reports 0, and the analyzer scores every analyzed blob through
this computation. -/
theorem dimension_score_floors (a : Analysis) :
    ((calculateScores a).linting.score = max (100 - 50) (100 - totalPenalty a.linting.issues)
      ∧ (calculateScores a).security.score
          = max (100 - 100) (100 - totalPenalty a.security.issues)
      ∧ (calculateScores a).architecture.score
          = max (100 - 50) (100 - totalPenalty a.architecture.issues)
      ∧ (calculateScores a).quality.score
          = max (100 - 50) (100 - totalPenalty a.quality.issues))
    ∧ (100 < totalPenalty a.architecture.issues →
        (calculateScores a).architecture.score = 50)
    ∧ (100 < totalPenalty a.security.issues →
        (calculateScores a).security.score = 0)
    ∧ (∀ (parseResult : Option ParseErr) (content fileName : String),
        analyzeCodeMultiDimensional parseResult content fileName
          = calculateScores (assembleAnalysis parseResult content fileName)) := by
  refine ⟨⟨?_, ?_, ?_, ?_⟩, ?_, ?_, fun _ _ _ => rfl⟩
  · simp [calculateScores, calculateScore_eq]
  · simp [calculateScores, calculateScore_eq]
  · simp [calculateScores, calculateScore_eq]
  · simp [calculateScores, calculateScore_eq]
  · intro h
    simp only [calculateScores, calculateScore_eq]
    rw [max_eq_left (by linarith)]
    norm_num
  · intro h
    simp only [calculateScores, calculateScore_eq]
    rw [max_eq_left (by linarith)]
    norm_num

/-- C1 witness: the overloaded analysis record has architecture and
security penalties over 100, and its scores land exactly on the floors. -/
theorem dimension_score_floors_witness :
    ((100 : Int) < totalPenalty overloadedAnalysis.architecture.issues
      ∧ (100 : Int) < totalPenalty overloadedAnalysis.security.issues)
    ∧ (calculateScores overloadedAnalysis).architecture.score = 50
    ∧ (calculateScores overloadedAnalysis).security.score = 0 :=
  ⟨⟨by decide, by decide⟩,
   (dimension_score_floors overloadedAnalysis).2.1 (by decide),
   (dimension_score_floors overloadedAnalysis).2.2.1 (by decide)⟩

/-! ## The incremental review orchestrator

The full-review analyzer of the review route produces issues without
category and auto-fix fields; the orchestrator diffs the stored content
against the current content, filters the full analysis down to the
neighbourhood of the changed lines and persists one review record.  The
diff engine and the full analyzer enter as function parameters. -/

/-- One finding of the full-review analyzer. -/
structure RIssue where
  type : String
  severity : String
  line : Nat
  message : String
  suggestion : String
deriving DecidableEq

/-- One changed line of the diff, with its change kind. -/
structure ChangedLine where
  lineNumber : Nat
  type : String
deriving DecidableEq

/-- The metrics block of the full-review analyzer. -/
structure BaseMetrics where
  totalLines : Nat
  codeLines : Nat
  commentLines : Nat
  blankLines : Nat
  errorCount : Nat
  warningCount : Nat
  infoCount : Nat
  qualityScore : Nat
deriving DecidableEq

/-- The result of one full-review analyzer run. -/
structure RAnalysis where
  issues : List RIssue
  metrics : BaseMetrics
deriving DecidableEq

/-- The per-run delta block of an incremental review. -/
structure IncrementalData where
  linesChanged : Nat
  linesAdded : Nat
  linesDeleted : Nat
  issuesFound : Nat
deriving DecidableEq

/-- The metrics object of an incremental response: the analyzer metrics
spread together with the delta block. -/
structure RespMetrics where
  base : BaseMetrics
  incrementalData : IncrementalData
deriving DecidableEq

/-- The analysis object of an incremental response. -/
structure RespAnalysis where
  issues : List RIssue
  metrics : RespMetrics
deriving DecidableEq

/-- The latest stored version as the orchestrator reads it. -/
structure StoredVersion where
  id : Nat
  content : String
deriving DecidableEq

/-- The review record the orchestrator persists. -/
structure ReviewRec where
  fileVersionId : Nat
  reviewType : String
  linesReviewed : List ChangedLine
  issues : List RIssue
  metrics : RespMetrics
deriving DecidableEq

/-- The orchestrator's terminal states. -/
inductive IncOutcome where
  | requiresFullReview (message : String)
  | noChanges (message : String) (changedLines : List ChangedLine)
      (analysis : RespAnalysis)
  | reviewed (changedLines : List ChangedLine) (analysis : RespAnalysis)
deriving DecidableEq

/-- The proximity filter: keep the issues whose line lies within two lines
of some changed line number. -/
def incrementalFilter (changedLineNumbers : List Nat) (issues : List RIssue) :
    List RIssue :=
  issues.filter (fun issue =>
    changedLineNumbers.any (fun lineNum =>
      ((issue.line : Int) - (lineNum : Int)).natAbs ≤ 2))

/-- The metrics of the no-change response: the current line count, zero
counts, a full quality score and a zero delta block. -/
def noChangesMetrics (currentContent : String) : RespMetrics :=
  ⟨⟨(jsSplit '\n' currentContent).length, 0, 0, 0, 0, 0, 0, 100⟩, ⟨0, 0, 0, 0⟩⟩

/-- The incremental orchestrator.  `getChanged` stands for the diff engine
composed with its changed-line extraction, `analyzeFn` for the full-review
analyzer; both are external to this route.  Returns the terminal state and
the list of review records written. -/
def runIncrementalReview (getChanged : String → String → List ChangedLine)
    (analyzeFn : String → String → RAnalysis)
    (previousVersion : Option StoredVersion)
    (currentContent fileName : String) : IncOutcome × List ReviewRec :=
  match previousVersion with
  | none =>
    (IncOutcome.requiresFullReview
      "No previous version found. Please run a full review first.", [])
  | some prev =>
    let changedLines := getChanged prev.content currentContent
    if changedLines.length = 0 then
      (IncOutcome.noChanges "No changes detected" []
        ⟨[], noChangesMetrics currentContent⟩, [])
    else
      let fullAnalysis := analyzeFn currentContent fileName
      let changedLineNumbers := changedLines.map (fun c => c.lineNumber)
      let incrementalIssues := incrementalFilter changedLineNumbers fullAnalysis.issues
      let incData : IncrementalData :=
        ⟨changedLines.length,
         (changedLines.filter (fun c => c.type = "added")).length,
         (changedLines.filter (fun c => c.type = "deleted")).length,
         incrementalIssues.length⟩
      let metrics : RespMetrics := ⟨fullAnalysis.metrics, incData⟩
      (IncOutcome.reviewed changedLines ⟨incrementalIssues, metrics⟩,
       [⟨prev.id, "incremental", changedLines, incrementalIssues, metrics⟩])

/-- C2: after a non-empty diff, an issue of the full analysis is kept by
the incremental filter exactly when its line lies within the fixed window
of 2 of some changed line; in particular an issue at line 10 is kept when
a change occurs at line 8 or at line 12, and dropped when every change is
at distance 3 or more (nearest change at line 7 or 13). -/
theorem incremental_filter_window (changed : List Nat) (issues : List RIssue)
    (hne : changed ≠ []) :
    (∀ iss, iss ∈ incrementalFilter changed issues ↔
      iss ∈ issues ∧ ∃ c ∈ changed, (((iss.line : Int) - (c : Int)).natAbs ≤ 2))
    ∧ (∀ iss ∈ issues, iss.line = 10 → 8 ∈ changed →
        iss ∈ incrementalFilter changed issues)
    ∧ (∀ iss ∈ issues, iss.line = 10 → 12 ∈ changed →
        iss ∈ incrementalFilter changed issues)
    ∧ (∀ iss ∈ issues, iss.line = 10 → (∀ c ∈ changed, c ≤ 7 ∨ 13 ≤ c) →
        iss ∉ incrementalFilter changed issues) := by
  have hmem : ∀ iss, iss ∈ incrementalFilter changed issues ↔
      iss ∈ issues ∧ ∃ c ∈ changed, (((iss.line : Int) - (c : Int)).natAbs ≤ 2) := by
    intro iss
    simp [incrementalFilter, List.mem_filter, List.any_eq_true]
  refine ⟨hmem, ?_, ?_, ?_⟩
  · intro iss hin h10 h8
    exact (hmem iss).2 ⟨hin, ⟨8, h8, by rw [h10]; decide⟩⟩
  · intro iss hin h10 h12
    exact (hmem iss).2 ⟨hin, ⟨12, h12, by rw [h10]; decide⟩⟩
  · intro iss hin h10 hfar hmem2
    obtain ⟨-, c, hc, habs⟩ := (hmem iss).1 hmem2
    rcases hfar c hc with h | h
    · rw [h10] at habs; omega
    · rw [h10] at habs; omega

/-- C2 witness: with changed lines 8 and 13 and one issue at line 10, the
filter keeps the issue through the change at distance 2. -/
theorem incremental_filter_window_witness :
    (([8, 13] : List Nat) ≠ []) ∧
    (⟨"quality", "info", 10, "m", "s"⟩ : RIssue) ∈
      incrementalFilter [8, 13] [⟨"quality", "info", 10, "m", "s"⟩] :=
  ⟨by decide,
   (incremental_filter_window [8, 13] [⟨"quality", "info", 10, "m", "s"⟩]
      (by decide)).2.1 ⟨"quality", "info", 10, "m", "s"⟩ (by decide) rfl (by decide)⟩

/-- A file-level issue, carrying the analyzer's line 0 sentinel. -/
def fileLevelIssue : RIssue :=
  ⟨"quality", "info", 0, "Variable \"x\" may be unused",
    "Remove unused variables to improve code clarity"⟩

/-- C3 counterexample: a file-level issue (line 0) is not dropped from the
incremental set; with a change at line 1 the filter keeps it, and a full
orchestrator run surfaces it in the incremental review. -/
theorem file_level_issue_not_excluded :
    fileLevelIssue.line = 0
    ∧ incrementalFilter [1] [fileLevelIssue] = [fileLevelIssue]
    ∧ (runIncrementalReview (fun _ _ => [⟨1, "modified"⟩])
        (fun _ _ => ⟨[fileLevelIssue], ⟨1, 1, 0, 0, 0, 0, 1, 99⟩⟩)
        (some ⟨7, "old"⟩) "new" "f.js").1
      = IncOutcome.reviewed [⟨1, "modified"⟩]
          ⟨[fileLevelIssue], ⟨⟨1, 1, 0, 0, 0, 0, 1, 99⟩, ⟨1, 0, 0, 1⟩⟩⟩ := by
  refine ⟨rfl, by decide, by decide⟩

/-- C3 as the code has it: a line-0 issue follows the same proximity rule
as every other issue, so it is kept exactly when some changed line number
is at most 2, and dropped only when every changed line exceeds 2. -/
theorem file_level_issue_window (changed : List Nat) (issues : List RIssue)
    (iss : RIssue) (hmem : iss ∈ issues) (h0 : iss.line = 0) :
    iss ∈ incrementalFilter changed issues ↔ ∃ c ∈ changed, c ≤ 2 := by
  simp only [incrementalFilter, List.mem_filter, List.any_eq_true, decide_eq_true_eq,
    hmem, true_and]
  constructor
  · rintro ⟨c, hc, habs⟩
    exact ⟨c, hc, by rw [h0] at habs; omega⟩
  · rintro ⟨c, hc, hle⟩
    exact ⟨c, hc, by rw [h0]; omega⟩

/-- C3 witness: with the single changed line 1 the file-level issue is in
the filtered set, matching the window condition. -/
theorem file_level_issue_window_witness :
    (fileLevelIssue ∈ [fileLevelIssue] ∧ fileLevelIssue.line = 0)
    ∧ (fileLevelIssue ∈ incrementalFilter [1] [fileLevelIssue] ↔
        ∃ c ∈ ([1] : List Nat), c ≤ 2) :=
  ⟨⟨by decide, rfl⟩,
   file_level_issue_window [1] [fileLevelIssue] fileLevelIssue (by decide) rfl⟩

/-- C6: an empty changed-line set short-circuits the orchestrator into the
no-change terminal state: an empty issue set, zero-delta metrics over the
current line count, no review written, and a result independent of the
analyzer (no analysis runs). -/
theorem no_changes_short_circuit (getChanged : String → String → List ChangedLine)
    (analyzeFn : String → String → RAnalysis) (prev : StoredVersion)
    (currentContent fileName : String)
    (hempty : getChanged prev.content currentContent = []) :
    runIncrementalReview getChanged analyzeFn (some prev) currentContent fileName
      = (IncOutcome.noChanges "No changes detected" []
          ⟨[], noChangesMetrics currentContent⟩, [])
    ∧ (∀ analyzeFn2 : String → String → RAnalysis,
        runIncrementalReview getChanged analyzeFn2 (some prev) currentContent fileName
          = runIncrementalReview getChanged analyzeFn (some prev) currentContent
              fileName) := by
  constructor
  · simp [runIncrementalReview, hempty]
  · intro analyzeFn2
    simp [runIncrementalReview, hempty]

/-- C6 witness: a diff function returning no changed lines drives a
concrete run into the no-change state with no review written. -/
theorem no_changes_short_circuit_witness :
    ((fun _ _ => ([] : List ChangedLine)) (StoredVersion.content ⟨3, "same"⟩) "same"
        = [])
    ∧ runIncrementalReview (fun _ _ => []) (fun _ _ => ⟨[], ⟨1, 1, 0, 0, 0, 0, 0, 100⟩⟩)
        (some ⟨3, "same"⟩) "same" "a.js"
      = (IncOutcome.noChanges "No changes detected" []
          ⟨[], noChangesMetrics "same"⟩, []) :=
  ⟨rfl,
   (no_changes_short_circuit (fun _ _ => []) (fun _ _ => ⟨[], ⟨1, 1, 0, 0, 0, 0, 0, 100⟩⟩)
      ⟨3, "same"⟩ "same" "a.js" rfl).1⟩

/-- C7: with no stored version the orchestrator stops in the
requires-full-review state, writes no review, and its result is
independent of both the diff engine and the analyzer (neither runs). -/
theorem requires_full_review_state (getChanged : String → String → List ChangedLine)
    (analyzeFn : String → String → RAnalysis) (currentContent fileName : String) :
    runIncrementalReview getChanged analyzeFn none currentContent fileName
      = (IncOutcome.requiresFullReview
          "No previous version found. Please run a full review first.", [])
    ∧ (∀ (getChanged2 : String → String → List ChangedLine)
        (analyzeFn2 : String → String → RAnalysis),
        runIncrementalReview getChanged2 analyzeFn2 none currentContent fileName
          = runIncrementalReview getChanged analyzeFn none currentContent fileName) :=
  ⟨rfl, fun _ _ => rfl⟩

/-! ## The version store

The store is modelled per file identity: the state is the list of the
versions saved for one file key, newest first.  The content fingerprint is
a function parameter standing for the SHA-256 digest; saving computes the
fingerprint, reads the row with the highest version number, returns
unchanged when the fingerprints agree, and otherwise creates the next
version.  The read and the create are two separate storage operations, so
they are also exposed as two phases for reasoning about interleavings. -/

/-- One stored version row. -/
structure FileVersionRec where
  version : Nat
  content : String
  hash : String
  size : Nat
deriving DecidableEq

/-- The versions stored for one file identity, newest first. -/
abbrev Store := List FileVersionRec

/-- What a save returns: whether a version was created, and the version
number now latest. -/
structure PutResult where
  changed : Bool
  version : Nat
deriving DecidableEq

/-- The row with the highest version number (the descending-order first
row), none on an empty store. -/
def latestVersion : Store → Option FileVersionRec
  | [] => none
  | v :: rest =>
    match latestVersion rest with
    | none => some v
    | some m => if m.version ≤ v.version then some v else some m

/-- The read phase of a save: fetch the latest stored row. -/
def readLatest (s : Store) : Option FileVersionRec := latestVersion s

/-- The write phase of a save, applied to the row the read phase returned:
a matching fingerprint is a no-op; otherwise the next version is created
from the read row's number (zero when none was read). -/
def writeVersion (hashFn : String → String) (content : String)
    (readRow : Option FileVersionRec) (s : Store) : Store × PutResult :=
  let hash := hashFn content
  match readRow with
  | some latest =>
    if latest.hash = hash then (s, ⟨false, latest.version⟩)
    else
      let newVersion := latest.version + 1
      (⟨newVersion, content, hash, content.utf8ByteSize⟩ :: s, ⟨true, newVersion⟩)
  | none => (⟨1, content, hash, content.utf8ByteSize⟩ :: s, ⟨true, 1⟩)

/-- Store a version: read the latest row, then write against it. -/
def storeFileVersion (hashFn : String → String) (s : Store) (content : String) :
    Store × PutResult :=
  writeVersion hashFn content (readLatest s) s

/-- The version numbers of the store, newest first. -/
def versionsOf (s : Store) : List Nat := s.map (fun v => v.version)

/-- The gapless descending sequence n, n-1, ..., 1. -/
def descSeq : Nat → List Nat
  | 0 => []
  | n + 1 => (n + 1) :: descSeq n

/-- The store invariant: its version numbers are exactly the gapless
descending sequence down from its length. -/
def gapless (s : Store) : Prop := versionsOf s = descSeq s.length

/-- The version number the store would extend: the latest row's number, or
zero on an empty store. -/
def latestNum (s : Store) : Nat :=
  match latestVersion s with
  | some m => m.version
  | none => 0

theorem latestVersion_eq_none_iff (s : Store) : latestVersion s = none ↔ s = [] := by
  cases s with
  | nil => simp [latestVersion]
  | cons v rest =>
    simp only [latestVersion]
    cases latestVersion rest with
    | none => simp
    | some m => by_cases h : m.version ≤ v.version <;> simp [h]

theorem gapless_latest (s : Store) (hg : gapless s) (hne : s ≠ []) :
    ∃ m, latestVersion s = some m ∧ m.version = s.length := by
  induction s with
  | nil => exact absurd rfl hne
  | cons v rest ih =>
    have hpair : v.version = rest.length + 1 ∧ versionsOf rest = descSeq rest.length := by
      have h := hg
      simp only [gapless, versionsOf, List.map_cons, List.length_cons, descSeq,
        List.cons.injEq] at h
      exact h
    refine ⟨v, ?_, by simp [hpair.1]⟩
    cases rest with
    | nil => simp [latestVersion]
    | cons w t =>
      obtain ⟨m, hm, hmv⟩ := ih hpair.2 (by simp)
      have hle : m.version ≤ v.version := by rw [hmv, hpair.1]; omega
      have hstep : latestVersion (v :: w :: t)
          = match latestVersion (w :: t) with
            | none => some v
            | some m => if m.version ≤ v.version then some v else some m := rfl
      rw [hstep, hm]
      simp [hle]

theorem gapless_latestNum (s : Store) (hg : gapless s) : latestNum s = s.length := by
  cases hs : s with
  | nil => simp [latestNum, latestVersion]
  | cons v rest =>
    obtain ⟨m, hm, hmv⟩ := gapless_latest s hg (by simp [hs])
    rw [← hs]
    simp [latestNum, hm, hmv]

/-- C4: saving a second time with content identical to the latest stored
version is a no-op.  After any save of `c`, the latest stored row carries
the returned version number and the fingerprint of `c`, and saving `c`
again returns the same store (no new row), created `false` and the same
latest version number. -/
theorem store_idempotent_on_same_content (hashFn : String → String) (s : Store)
    (c : String) :
    ∃ m, latestVersion (storeFileVersion hashFn s c).1 = some m
      ∧ m.version = (storeFileVersion hashFn s c).2.version
      ∧ m.hash = hashFn c
      ∧ storeFileVersion hashFn (storeFileVersion hashFn s c).1 c
          = ((storeFileVersion hashFn s c).1, ⟨false, m.version⟩) := by
  rcases hl : latestVersion s with - | m0
  · -- empty store: the first save creates version 1
    have hs : s = [] := (latestVersion_eq_none_iff s).1 hl
    subst hs
    refine ⟨⟨1, c, hashFn c, c.utf8ByteSize⟩, ?_, ?_, rfl, ?_⟩ <;>
      simp [storeFileVersion, readLatest, writeVersion, latestVersion]
  · by_cases heq : m0.hash = hashFn c
    · -- same fingerprint already latest: both saves are no-ops
      refine ⟨m0, ?_, ?_, heq, ?_⟩ <;>
        simp [storeFileVersion, readLatest, writeVersion, hl, heq]
    · -- the first save creates the next version; the second sees it latest
      have hlat2 : latestVersion
          ((⟨m0.version + 1, c, hashFn c, c.utf8ByteSize⟩ : FileVersionRec) :: s)
          = some ⟨m0.version + 1, c, hashFn c, c.utf8ByteSize⟩ := by
        simp [latestVersion, hl]
      refine ⟨⟨m0.version + 1, c, hashFn c, c.utf8ByteSize⟩, ?_, ?_, rfl, ?_⟩ <;>
        simp [storeFileVersion, readLatest, writeVersion, hl, heq, hlat2]

/-- C5: version numbers are gapless and strictly increasing from 1: saving
preserves the invariant, a save whose fingerprint differs from the latest
stored fingerprint (or that finds no stored row) creates the version after
the latest (1 on a fresh identity), and two saves of contents with
distinct fingerprints on a fresh identity return versions 1 then 2. -/
theorem version_numbers_gapless (hashFn : String → String) :
    (∀ (s : Store) (c : String), gapless s → gapless (storeFileVersion hashFn s c).1)
    ∧ (∀ (s : Store) (c : String),
        (∀ m, latestVersion s = some m → ¬ m.hash = hashFn c) →
        (storeFileVersion hashFn s c).2 = ⟨true, latestNum s + 1⟩)
    ∧ (∀ c1 c2 : String, ¬ hashFn c1 = hashFn c2 →
        (storeFileVersion hashFn [] c1).2.version = 1
        ∧ (storeFileVersion hashFn (storeFileVersion hashFn [] c1).1 c2).2.version = 2
        ∧ versionsOf (storeFileVersion hashFn (storeFileVersion hashFn [] c1).1 c2).1
            = [2, 1]) := by
  refine ⟨?_, ?_, ?_⟩
  · intro s c hg
    rcases hl : latestVersion s with - | m0
    · have hs : s = [] := (latestVersion_eq_none_iff s).1 hl
      subst hs
      simp [storeFileVersion, readLatest, writeVersion, hl, gapless, versionsOf, descSeq]
    · by_cases heq : m0.hash = hashFn c
      · simpa [storeFileVersion, readLatest, writeVersion, hl, heq] using hg
      · have hm0 : m0.version = s.length := by
          have hne : s ≠ [] := by
            intro h
            rw [h] at hl
            simp [latestVersion] at hl
          obtain ⟨m, hm, hmv⟩ := gapless_latest s hg hne
          rw [hl] at hm
          cases hm
          exact hmv
        simp only [storeFileVersion, readLatest, writeVersion, hl, heq, ite_false]
        simp only [gapless, versionsOf, List.map_cons, List.length_cons, descSeq, hm0]
        exact congrArg (fun l => (s.length + 1) :: l) hg
  · intro s c hnone
    rcases hl : latestVersion s with - | m0
    · simp [storeFileVersion, readLatest, writeVersion, hl, latestNum]
    · have : ¬ m0.hash = hashFn c := hnone m0 hl
      simp [storeFileVersion, readLatest, writeVersion, hl, this, latestNum]
  · intro c1 c2 hdiff
    have h1 : storeFileVersion hashFn [] c1
        = ([⟨1, c1, hashFn c1, c1.utf8ByteSize⟩], ⟨true, 1⟩) := by
      simp [storeFileVersion, readLatest, writeVersion, latestVersion]
    have h2 : latestVersion [(⟨1, c1, hashFn c1, c1.utf8ByteSize⟩ : FileVersionRec)]
        = some ⟨1, c1, hashFn c1, c1.utf8ByteSize⟩ := by
      simp [latestVersion]
    refine ⟨by rw [h1], ?_, ?_⟩
    · rw [h1]
      simp [storeFileVersion, readLatest, writeVersion, h2, hdiff]
    · rw [h1]
      simp [storeFileVersion, readLatest, writeVersion, h2, hdiff, versionsOf]

/-- C5 witness: with the identity fingerprint and the distinct contents
"a" and "b", a fresh identity stores versions 1 then 2. -/
theorem version_numbers_gapless_witness :
    (¬ (fun s : String => s) "a" = (fun s : String => s) "b")
    ∧ (storeFileVersion (fun s => s) [] "a").2.version = 1
    ∧ (storeFileVersion (fun s => s)
        (storeFileVersion (fun s => s) [] "a").1 "b").2.version = 2 := by
  have h := (version_numbers_gapless (fun s : String => s)).2.2 "a" "b" (by decide)
  exact ⟨by decide, h.1, h.2.1⟩

/-! ## The save race

A save is a read of the latest row followed by a separate create; nothing
in the store serializes the two phases per file identity.  The schedule
below interleaves two saves of a fresh identity: both reads happen before
either write.  The fingerprint function is the identity, standing for any
digest. -/

/-- First request reads the fresh (empty) store. -/
def raceRead1 : Option FileVersionRec := readLatest ([] : Store)

/-- First request writes against its read. -/
def raceWrite1 : Store × PutResult := writeVersion (fun x => x) "a" raceRead1 []

/-- Second request reads the store before the first write lands. -/
def raceRead2 : Option FileVersionRec := readLatest ([] : Store)

/-- Second request writes against its stale read, on top of the first
write. -/
def raceWrite2 : Store × PutResult :=
  writeVersion (fun x => x) "b" raceRead2 raceWrite1.1

/-- C9: a save is exactly its two phases, and the interleaving
read-read-write-write of two saves on a fresh identity makes both writes
create version 1: duplicate version numbers, so the gapless invariant
breaks and version creation is not serialized per file identity. -/
theorem concurrent_put_race :
    (∀ (hashFn : String → String) (s : Store) (c : String),
      storeFileVersion hashFn s c = writeVersion hashFn c (readLatest s) s)
    ∧ versionsOf raceWrite2.1 = [1, 1]
    ∧ raceWrite1.2 = ⟨true, 1⟩
    ∧ raceWrite2.2 = ⟨true, 1⟩
    ∧ ¬ gapless raceWrite2.1 := by
  refine ⟨fun _ _ _ => rfl, by decide, by decide, by decide, ?_⟩
  intro h
  unfold gapless at h
  revert h
  decide

/-- The linting issue list of the analysis record, unchanged by scoring. -/
theorem calculateScores_linting_issues (a : Analysis) :
    (calculateScores a).linting.issues = a.linting.issues := rfl

/-- The combined issue list of the analysis record, unchanged by scoring. -/
theorem calculateScores_issues (a : Analysis) :
    (calculateScores a).issues = a.issues := rfl

/-- The combined issue list as assembled, in pass order. -/
theorem assembleAnalysis_issues (parseResult : Option ParseErr) (c f : String) :
    (assembleAnalysis parseResult c f).issues
      = performLintingAnalysis parseResult (jsSplit '\n' c) (fileExtOf f)
        ++ performSecurityAnalysis (jsSplit '\n' c) (fileExtOf f)
        ++ performArchitectureAnalysis c (jsSplit '\n' c)
        ++ performQualityAnalysis c (jsSplit '\n' c)
        ++ (performDocumentationAnalysis c (jsSplit '\n' c) (fileExtOf f)).issues := by
  simp [assembleAnalysis, calculateScores, List.append_assoc]

/-- C8: a parser throw with a reported line never aborts the analysis: the
run differs from the successful-parse run only in the linting dimension,
which gains exactly one error-severity issue at the reported line; the
security, architecture, quality and documentation passes and the metrics
are untouched, and the combined issue list still contains every other
pass's issues. -/
theorem parse_throw_recovered (l : Nat) (msg : String) (content fileName : String)
    (hjs : isJavaScriptExt (fileExtOf fileName) = true) :
    (analyzeCodeMultiDimensional (some ⟨some l, msg⟩) content fileName).security
        = (analyzeCodeMultiDimensional none content fileName).security
    ∧ (analyzeCodeMultiDimensional (some ⟨some l, msg⟩) content fileName).architecture
        = (analyzeCodeMultiDimensional none content fileName).architecture
    ∧ (analyzeCodeMultiDimensional (some ⟨some l, msg⟩) content fileName).quality
        = (analyzeCodeMultiDimensional none content fileName).quality
    ∧ (analyzeCodeMultiDimensional (some ⟨some l, msg⟩) content fileName).documentation
        = (analyzeCodeMultiDimensional none content fileName).documentation
    ∧ (analyzeCodeMultiDimensional (some ⟨some l, msg⟩) content fileName).metrics
        = (analyzeCodeMultiDimensional none content fileName).metrics
    ∧ (analyzeCodeMultiDimensional (some ⟨some l, msg⟩) content fileName).linting.issues
        = (analyzeCodeMultiDimensional none content fileName).linting.issues
            ++ [mkSyntaxErrorIssue l msg]
    ∧ (mkSyntaxErrorIssue l msg).severity = "error"
    ∧ (mkSyntaxErrorIssue l msg).line = l
    ∧ (analyzeCodeMultiDimensional (some ⟨some l, msg⟩) content fileName).issues
        = (analyzeCodeMultiDimensional none content fileName).linting.issues
            ++ [mkSyntaxErrorIssue l msg]
            ++ (analyzeCodeMultiDimensional none content fileName).security.issues
            ++ (analyzeCodeMultiDimensional none content fileName).architecture.issues
            ++ (analyzeCodeMultiDimensional none content fileName).quality.issues
            ++ (analyzeCodeMultiDimensional none content fileName).documentation.issues := by
  refine ⟨rfl, rfl, rfl, rfl, rfl, ?_, rfl, rfl, ?_⟩
  · simp [analyzeCodeMultiDimensional, calculateScores, assembleAnalysis,
      performLintingAnalysis, lintJavaScript, parseIssues, hjs, List.append_assoc]
  · simp [analyzeCodeMultiDimensional, calculateScores, assembleAnalysis,
      performLintingAnalysis, lintJavaScript, parseIssues, hjs, List.append_assoc]

/-- C8 witness: analyzing a JavaScript file with a parser throw at line 5
yields the successful-parse linting issues plus the one syntax error. -/
theorem parse_throw_recovered_witness :
    isJavaScriptExt (fileExtOf "a.js") = true
    ∧ (analyzeCodeMultiDimensional (some ⟨some 5, "Unexpected token"⟩) "x" "a.js").linting.issues
      = (analyzeCodeMultiDimensional none "x" "a.js").linting.issues
          ++ [mkSyntaxErrorIssue 5 "Unexpected token"] :=
  ⟨by decide,
   (parse_throw_recovered 5 "Unexpected token" "x" "a.js" (by decide)).2.2.2.2.2.1⟩

/-! ## Line positivity of the analyzer's issues -/

theorem forEachLine_mem {α : Type} (lines : List String) (cond : Nat → String → Bool)
    (mk : Nat → String → α) (x : α) (hx : x ∈ forEachLine lines cond mk) :
    ∃ i l, x = mk (i + 1) l := by
  simp only [forEachLine, List.mem_filterMap, List.mem_range] at hx
  obtain ⟨i, -, hx⟩ := hx
  by_cases h : cond i (lines.getD i "")
  · rw [if_pos h] at hx
    exact ⟨i, lines.getD i "", (Option.some_inj.mp hx).symm⟩
  · rw [if_neg h] at hx
    cases hx

theorem forEachLine_line_pos (lines : List String) (cond : Nat → String → Bool)
    (mk : Nat → String → Issue) (hmk : ∀ n l, (mk n l).line = n) :
    ∀ x ∈ forEachLine lines cond mk, 1 ≤ x.line := by
  intro x hx
  obtain ⟨i, l, rfl⟩ := forEachLine_mem lines cond mk x hx
  rw [hmk]
  omega

theorem forEachLineMulti_mem {α : Type} (lines : List String)
    (mks : Nat → String → List α) (x : α) (hx : x ∈ forEachLineMulti lines mks) :
    ∃ i l, x ∈ mks (i + 1) l := by
  simp only [forEachLineMulti, List.mem_flatMap, List.mem_range] at hx
  obtain ⟨i, -, hx⟩ := hx
  exact ⟨i, lines.getD i "", hx⟩

theorem mem_ite_singleton {α : Type} {c : Prop} [Decidable c] {x y : α}
    (h : y ∈ (if c then [x] else [])) : y = x := by
  split at h
  · simpa using h
  · cases h

theorem duplicate_fold_line_pos (lines : List String) (idxs : List Nat)
    (acc : List String × List Issue) (hacc : ∀ x ∈ acc.2, 1 ≤ x.line) :
    ∀ x ∈ (idxs.foldl (duplicateStep lines) acc).2, 1 ≤ x.line := by
  induction idxs generalizing acc with
  | nil => exact hacc
  | cons i t ih =>
    rw [List.foldl_cons]
    apply ih
    intro x hx
    simp only [duplicateStep] at hx
    rw [apply_ite Prod.snd] at hx
    split at hx
    · dsimp only at hx
      split at hx
      · rcases List.mem_append.mp hx with h | h
        · exact hacc x h
        · simp only [List.mem_singleton] at h
          subst h
          simp [mkDuplicateIssue]
      · exact hacc x hx
    · exact hacc x hx

theorem longFn_fold_line_pos (ps : List (Nat × String)) (acc : LongFnAcc)
    (hacc : ∀ x ∈ acc.issues, 1 ≤ x.line) :
    ∀ x ∈ (ps.foldl longFunctionStep acc).issues, 1 ≤ x.line := by
  induction ps generalizing acc with
  | nil => exact hacc
  | cons p t ih =>
    rw [List.foldl_cons]
    apply ih
    intro x hx
    simp only [longFunctionStep] at hx
    set A := (if lineHasFuncDecl p.2 then
      { acc with functionStart := some p.1, braceCount := 0 } else acc) with hA
    have hAiss : A.issues = acc.issues := by
      rw [hA]; split <;> rfl
    rcases hfs : A.functionStart with - | fs
    · rw [hfs] at hx
      dsimp only at hx
      rw [hAiss] at hx
      exact hacc x hx
    · rw [hfs] at hx
      dsimp only at hx
      split at hx
      · dsimp only at hx
        rw [hAiss] at hx
        rcases List.mem_append.mp hx with h | h
        · exact hacc x h
        · simp only [List.mem_singleton] at h
          subst h
          simp [mkLongFunctionIssue]
      · dsimp only at hx
        rw [hAiss] at hx
        exact hacc x hx

theorem performLinting_line_pos (parseResult : Option ParseErr) (lines : List String)
    (ext : String) (hp : ∀ x ∈ parseIssues parseResult, 1 ≤ x.line) :
    ∀ x ∈ performLintingAnalysis parseResult lines ext, 1 ≤ x.line := by
  intro x hx
  unfold performLintingAnalysis at hx
  simp only [List.append_assoc] at hx
  rcases List.mem_append.mp hx with h | h
  · exact forEachLine_line_pos _ _ _ (fun n l => rfl) x h
  rcases List.mem_append.mp h with h | h
  · exact forEachLine_line_pos _ _ _ (fun n l => rfl) x h
  split at h
  · unfold lintJavaScript at h
    simp only [List.append_assoc] at h
    rcases List.mem_append.mp h with h | h
    · exact forEachLine_line_pos _ _ _ (fun n l => rfl) x h
    rcases List.mem_append.mp h with h | h
    · exact forEachLine_line_pos _ _ _ (fun n l => rfl) x h
    rcases List.mem_append.mp h with h | h
    · exact forEachLine_line_pos _ _ _ (fun n l => rfl) x h
    · exact hp x h
  split at h
  · unfold lintPython at h
    obtain ⟨i, l, h⟩ := forEachLineMulti_mem _ _ x h
    rcases List.mem_append.mp h with h | h
    · rw [mem_ite_singleton h]
      simp [mkPyTabIssue]
    · rw [mem_ite_singleton h]
      simp [mkPyPrintIssue]
  split at h
  · exact forEachLine_line_pos _ _ _ (fun n l => rfl) x h
  · cases h

theorem performSecurity_line_pos (lines : List String) (ext : String) :
    ∀ x ∈ performSecurityAnalysis lines ext, 1 ≤ x.line := by
  intro x hx
  unfold performSecurityAnalysis at hx
  rcases List.mem_append.mp hx with h | h
  · split at h
    · unfold securityCheckJavaScript at h
      simp only [List.append_assoc] at h
      rcases List.mem_append.mp h with h | h
      · exact forEachLine_line_pos _ _ _ (fun n l => rfl) x h
      rcases List.mem_append.mp h with h | h
      · exact forEachLine_line_pos _ _ _ (fun n l => rfl) x h
      rcases List.mem_append.mp h with h | h
      · exact forEachLine_line_pos _ _ _ (fun n l => rfl) x h
      split at h
      · exact forEachLine_line_pos _ _ _ (fun n l => rfl) x h
      · cases h
    split at h
    · unfold securityCheckPython at h
      rcases List.mem_append.mp h with h | h
      · exact forEachLine_line_pos _ _ _ (fun n l => rfl) x h
      · exact forEachLine_line_pos _ _ _ (fun n l => rfl) x h
    · cases h
  · obtain ⟨i, l, h⟩ := forEachLineMulti_mem _ _ x h
    obtain ⟨-, -, h⟩ := List.mem_map.mp h
    rw [← h]
    simp [mkSecretIssue]

theorem performArchitecture_line_pos (content : String) (lines : List String) :
    ∀ x ∈ performArchitectureAnalysis content lines, 1 ≤ x.line := by
  intro x hx
  unfold performArchitectureAnalysis at hx
  simp only [List.append_assoc] at hx
  rcases List.mem_append.mp hx with h | h
  · rw [mem_ite_singleton h]
    simp [mkLargeFileIssue]
  rcases List.mem_append.mp h with h | h
  · rw [mem_ite_singleton h]
    simp [mkHighFuncCountIssue]
  rcases List.mem_append.mp h with h | h
  · rw [mem_ite_singleton h]
    simp [mkHighImportsIssue]
  rcases List.mem_append.mp h with h | h
  · rw [mem_ite_singleton h]
    simp [mkMixedExportsIssue]
  · exact forEachLine_line_pos _ _ _ (fun n l => rfl) x h

theorem performQuality_line_pos (content : String) (lines : List String) :
    ∀ x ∈ performQualityAnalysis content lines, 1 ≤ x.line := by
  intro x hx
  unfold performQualityAnalysis at hx
  simp only [List.append_assoc] at hx
  rcases List.mem_append.mp hx with h | h
  · exact forEachLine_line_pos _ _ _ (fun n l => rfl) x h
  rcases List.mem_append.mp h with h | h
  · exact duplicate_fold_line_pos lines _ ([], []) (by intro y hy; cases hy) x h
  rcases List.mem_append.mp h with h | h
  · exact forEachLine_line_pos _ _ _ (fun n l => rfl) x h
  rcases List.mem_append.mp h with h | h
  · split at h
    · exact forEachLine_line_pos _ _ _ (fun n l => rfl) x h
    · cases h
  · exact longFn_fold_line_pos _ ⟨none, 0, []⟩ (by intro y hy; cases hy) x h

theorem performDocumentation_line_pos (content : String) (lines : List String)
    (ext : String) :
    ∀ x ∈ (performDocumentationAnalysis content lines ext).issues, 1 ≤ x.line := by
  intro x hx
  unfold performDocumentationAnalysis at hx
  split at hx
  · cases hx
  · dsimp only at hx
    exact forEachLine_line_pos _ _ _ (fun n l => rfl) x hx

/-- C10: every issue the multi-dimensional analyzer emits carries a line
of at least 1 - file-level findings are attributed to line 1 - provided
the external parser reports 1-based lines; the analyzer never produces the
file-level sentinel line 0. -/
theorem analyzer_lines_positive (parseResult : Option ParseErr)
    (content fileName : String)
    (hloc : ∀ e, parseResult = some e → ∀ l, e.loc = some l → 1 ≤ l) :
    ∀ iss ∈ (analyzeCodeMultiDimensional parseResult content fileName).issues,
      1 ≤ iss.line := by
  intro iss hiss
  have hp : ∀ x ∈ parseIssues parseResult, 1 ≤ x.line := by
    intro x hx
    rcases hpr : parseResult with - | e
    · simp [parseIssues, hpr] at hx
    · rcases hl : e.loc with - | l
      · simp [parseIssues, hpr, hl] at hx
      · simp [parseIssues, hpr, hl] at hx
        subst hx
        exact hloc e hpr l hl
  unfold analyzeCodeMultiDimensional at hiss
  rw [calculateScores_issues, assembleAnalysis_issues] at hiss
  simp only [List.append_assoc] at hiss
  rcases List.mem_append.mp hiss with h | h
  · exact performLinting_line_pos _ _ _ hp iss h
  rcases List.mem_append.mp h with h | h
  · exact performSecurity_line_pos _ _ iss h
  rcases List.mem_append.mp h with h | h
  · exact performArchitecture_line_pos _ _ iss h
  rcases List.mem_append.mp h with h | h
  · exact performQuality_line_pos _ _ iss h
  · exact performDocumentation_line_pos _ _ _ iss h

/-- C10 witness: on a concrete JavaScript blob with a successful parse,
every emitted issue has a positive line. -/
theorem analyzer_lines_positive_witness :
    ((analyzeCodeMultiDimensional none "var x = 1" "app.js").issues.all
      (fun iss => decide (1 ≤ iss.line))) = true :=
  List.all_eq_true.mpr (fun iss h => by
    have hpos := analyzer_lines_positive none "var x = 1" "app.js"
      (fun e he => by cases he) iss h
    simpa using hpos)

end CodeReview
